import Mathlib

/-!
Verification of the interrupt-driven UART transmit driver, the I2C (TWI)
master driver, and the LCD rasterizer of the avr-demos repository.

The development shallowly embeds the C sources:

* `src/library/uart.c` — queued, interrupt-driven UART transmit (strings,
  decimal and hexadecimal integers), line-oriented receive.
* `src/i2c-digital-read/i2c.c` — queued I2C master transactions driven by
  the TWI interrupt, with the bus-level control/data register writes
  recorded as events.
* `src/library/graphics.c` (with `src/library/lcd.c` and the ILI9488 panel
  constants) — pixel, axis-aligned line and Bresenham line rasterization,
  with display writes recorded as events.

Machine integers are modelled as `Nat`/`Int` with explicit reductions
modulo `2 ^ 8`, `2 ^ 16` or `2 ^ 32` where the C types wrap.  The
statically allocated pools of 32 request slots are modelled by the number
of free slots: a slot is fully re-initialised by every allocation, so the
identity of the physical slot is not observable; the linked free list of
`uart.c` and the mode-field scan of `i2c.c` both fail exactly when no
slot is free.
-/

/-! ## Machine-integer helpers -/

/-- Reinterpret an integer as a signed 16-bit value (two's complement),
as the AVR `int` does on overflow. -/
def int16 (z : Int) : Int :=
  let r := z % 65536
  if r < 32768 then r else r - 65536

/-- The unsigned 16-bit bit pattern of a C `int` value, as produced by the
usual arithmetic conversions when an `int` meets a `uint16_t`. -/
def bits16 (z : Int) : Nat :=
  (z % 65536).toNat

/-- Truncate to an unsigned 8-bit value (stores into `UDR0`, `TWDR`,
`uint8_t` fields). -/
def byte8 (n : Nat) : Nat :=
  n % 256

/-- Decrement of a `uint8_t`, wrapping at zero. -/
def dec8 (n : Nat) : Nat :=
  (n + 255) % 256

/-- Decrement a `uint16_t` by 4, wrapping (used for `shift_bits -= 4`). -/
def dec16by4 (n : Nat) : Nat :=
  (n + 65532) % 65536

/-! ## UART transmit driver (`src/library/uart.c`)

A transmit request is one slot of the `transmit_queue` pool: the
`message_data` union together with the `transmit_function` pointer.  The
three handler functions of the source are the three constructors; a C
string is embedded as the list of its bytes before the terminating null
(so the bytes of a string item are never zero). -/

/-- One `struct queue_item` of `uart.c`: the payload union plus the
`transmit_function` tag (string, decimal integer, or hexadecimal
integer). -/
inductive UartItem : Type
  | string (text : List Nat)
  | intDec (number : Int)
  | intHex (number : Int)
deriving DecidableEq, Repr

/-- The file-scope state of `uart.c`: the free pool (modelled by the
number of free slots out of `BUFFER_LENGTH = 32`), the FIFO transmit
queue (head at the front, tail at the back), the shared `digit_mask` and
`shift_bits` globals, and the UDRE-interrupt-enable bit of `UCSR0B`. -/
@[ext]
structure UartState : Type where
  free : Nat
  queue : List UartItem
  digit_mask : Nat
  shift_bits : Nat
  udre : Bool
deriving DecidableEq, Repr

/-- State after `uart_init`: empty queue, all 32 slots free, `digit_mask`
zero, UDRE interrupt disabled (`UCSR0B = 0x98`). -/
def uart_init : UartState :=
  { free := 32, queue := [], digit_mask := 0, shift_bits := 0, udre := false }

/-- The `enqueue` function of `uart.c`: append at the tail; if the queue
was empty, additionally enable the UDRE interrupt. -/
def uart_enqueue (item : UartItem) (s : UartState) : UartState :=
  if s.queue = [] then
    { s with queue := [item], udre := true }
  else
    { s with queue := s.queue ++ [item] }

/-- `transmit_string`: claim a slot (`allocate_item` returns null — here,
`free = 0` — when the pool is exhausted, making the call return 0 and
change nothing), store the text and the string handler, enqueue, enable
the UDRE interrupt, and return `strlen(message)`. -/
def transmit_string (message : List Nat) (s : UartState) : Nat × UartState :=
  if s.free = 0 then
    (0, s)
  else
    let s1 := uart_enqueue (UartItem.string message) { s with free := s.free - 1 }
    (message.length, { s1 with udre := true })

/-- `transmit_int`: for base `HEX` (16) first transmit the literal `0x`
via `transmit_string`, then claim a slot for the integer item (returning
0 if the pool is exhausted) and enqueue it with the handler selected by
the base.  Returns `sizeof(int) = 2` on success. -/
def transmit_int (value : Int) (base : Nat) (s : UartState) : Nat × UartState :=
  let s0 := if base = 16 then (transmit_string [48, 120] s).2 else s
  if s0.free = 0 then
    (0, s0)
  else
    let item := if base = 16 then UartItem.intHex value else UartItem.intDec value
    (2, uart_enqueue item { s0 with free := s0.free - 1 })

/-- `digit_map` / `hexadecimal_digits_map`: the byte values of the C
string `"0123456789ABCDEF"`. -/
def digit_map : List Nat :=
  [48, 49, 50, 51, 52, 53, 54, 55, 56, 57, 65, 66, 67, 68, 69, 70]

/-- The `while (data->number / digit_mask == 0) digit_mask /= 10;` loop of
`integer_transmit_handler`, started from `digit_mask = 10000`.  On the
AVR target the software division routine yields a non-zero quotient for
division by zero, so the loop always leaves the largest power of ten not
exceeding `n`, or zero when `n` is zero. -/
def initial_mask (n : Nat) : Nat :=
  if n / 10000 ≠ 0 then 10000
  else if n / 1000 ≠ 0 then 1000
  else if n / 100 ≠ 0 then 100
  else if n / 10 ≠ 0 then 10
  else if n / 1 ≠ 0 then 1
  else 0

/-- Result of one handler invocation: the updated item (`none` when the
handler returned 1, i.e. finished), the updated `digit_mask` and
`shift_bits` globals, and the byte written to `UDR0`, if any. -/
structure UartStepRes : Type where
  item : Option UartItem
  digit_mask : Nat
  shift_bits : Nat
  out : Option Nat
deriving DecidableEq, Repr

/-- `string_transmit_handler`: finish (without output) at the null
terminator; on `%` advance and finish unless the next character is
another `%` (a literal `%%` emits one `%`); otherwise emit the current
character and advance. -/
def string_transmit_handler (text : List Nat) (mask shift : Nat) : UartStepRes :=
  match text with
  | [] => ⟨none, mask, shift, none⟩
  | c :: rest =>
    if c = 37 then
      match rest with
      | [] => ⟨none, mask, shift, none⟩
      | d :: rest2 =>
        if d ≠ 37 then ⟨none, mask, shift, none⟩
        else ⟨some (UartItem.string rest2), mask, shift, some 37⟩
    else
      ⟨some (UartItem.string rest), mask, shift, some (byte8 c)⟩

/-- `integer_transmit_handler`: emit `-` and negate (16-bit wrap) while
the value is negative; otherwise initialise the shared `digit_mask` if it
is zero, then emit one decimal digit by division and keep the remainder,
finishing when the mask reaches zero. -/
def integer_transmit_handler (number : Int) (mask shift : Nat) : UartStepRes :=
  if number < 0 then
    ⟨some (UartItem.intDec (int16 (-number))), mask, shift, some 45⟩
  else
    let n := number.toNat
    let m1 := if mask = 0 then initial_mask n else mask
    if m1 ≠ 0 then
      let digit := byte8 (n / m1)
      let n2 := n % m1
      let m2 := m1 / 10
      ⟨if m2 = 0 then none else some (UartItem.intDec (Int.ofNat n2)),
        m2, shift, some (digit_map.getD digit 0)⟩
    else
      ⟨none, 0, shift, some (digit_map.getD (byte8 n) 0)⟩

/-- `hexadecimal_transmit_handler`: initialise the shared mask to
`0xF000` and the shift to 12 if the mask is zero, then emit one nibble,
shifting the mask right by 4 and decrementing `shift_bits` by 4 (with
`uint16_t` wrap), finishing when the mask reaches zero. -/
def hexadecimal_transmit_handler (number : Int) (mask shift : Nat) : UartStepRes :=
  let m1 := if mask = 0 then 61440 else mask
  let sh1 := if mask = 0 then 12 else shift
  let digit := byte8 ((bits16 number &&& m1) >>> sh1)
  let m2 := m1 >>> 4
  ⟨if m2 = 0 then none else some (UartItem.intHex number),
    m2, dec16by4 sh1, some (digit_map.getD digit 0)⟩

/-- Dispatch through the `transmit_function` pointer of the head item. -/
def uart_handler_step (item : UartItem) (mask shift : Nat) : UartStepRes :=
  match item with
  | UartItem.string text => string_transmit_handler text mask shift
  | UartItem.intDec number => integer_transmit_handler number mask shift
  | UartItem.intHex number => hexadecimal_transmit_handler number mask shift

/-- Tail of the `ISR (USART_UDRE_vect)` body: if the handler reported 1
(finished, `item = none`) the head slot is dequeued and pushed on the
free list; otherwise the mutated item stays at the head. -/
def uart_apply_res (s : UartState) (rest : List UartItem) (r : UartStepRes) :
    UartState × Option Nat :=
  match r.item with
  | some item2 =>
    (⟨s.free, item2 :: rest, r.digit_mask, r.shift_bits, s.udre⟩, r.out)
  | none =>
    (⟨s.free + 1, rest, r.digit_mask, r.shift_bits, s.udre⟩, r.out)

/-- The `ISR (USART_UDRE_vect)` handler: if the queue is non-empty invoke
the head item's handler, dequeueing and releasing the slot to the free
list when it reports finished; if the queue is empty, disable the UDRE
interrupt. -/
def udre_isr (s : UartState) : UartState × Option Nat :=
  match s.queue with
  | [] => ({ s with udre := false }, none)
  | item :: rest =>
    uart_apply_res s rest (uart_handler_step item s.digit_mask s.shift_bits)

/-- Run the UDRE interrupt `fuel` times, collecting the bytes written to
`UDR0` in order. -/
def uart_drain (fuel : Nat) (s : UartState) : List Nat × UartState :=
  match fuel with
  | 0 => ([], s)
  | fuel + 1 =>
    let (s1, out) := udre_isr s
    let (rest, s2) := uart_drain fuel s1
    (out.toList ++ rest, s2)

/-- Submit a list of strings through successive `transmit_string` calls. -/
def submit_strings (ss : List (List Nat)) (s : UartState) : UartState :=
  match ss with
  | [] => s
  | t :: rest => submit_strings rest (transmit_string t s).2

/-- Fuel sufficient to fully transmit a list of string requests: one
interrupt per character plus one finishing interrupt per request. -/
def strings_fuel (ss : List (List Nat)) : Nat :=
  (ss.map (fun t => t.length + 1)).sum

/-- A byte of a transmitted C string: non-null (it precedes the
terminator), not the `%` format escape, and an 8-bit value. -/
def plain_byte (b : Nat) : Prop :=
  b ≠ 0 ∧ b ≠ 37 ∧ b < 256

instance (b : Nat) : Decidable (plain_byte b) := by
  unfold plain_byte; infer_instance

/-- Specification-side canonical rendering used by claim C5: the
character code of one uppercase hexadecimal digit. -/
def hex_digit_char (d : Nat) : Nat :=
  if d < 10 then 48 + d else 55 + d

/-- Specification-side canonical rendering used by claim C5: `0x`
followed by exactly four uppercase hexadecimal digits, zero padded. -/
def spec_hex16 (v : Nat) : List Nat :=
  [48, 120, hex_digit_char (v / 4096 % 16), hex_digit_char (v / 256 % 16),
    hex_digit_char (v / 16 % 16), hex_digit_char (v % 16)]

/-! ## I2C (TWI) master driver (`src/i2c-digital-read/i2c.c`)

The hardware registers written by the driver are recorded as events:
`twdr v` is a write of `v` to the TWI data register (a byte on the bus),
`twcr v` a write of `v` to the control register (bit 5 = TWSTA requests a
START condition, bit 4 = TWSTO a STOP condition), and `store v` a write
of a received byte into the caller buffer.  The pool of 32
`i2c_buffer` slots (freed by setting `i2c_mode = 0`) is modelled by the
number of free slots. -/

/-- One `struct i2c_queue_item`: target address, mode (2 = master
transmitter, 4 = master receiver, 0 = free slot), the remaining bytes of
the caller buffer from the cursor on, and the remaining `uint8_t`
length. -/
structure I2cTxn : Type where
  device_address : Nat
  i2c_mode : Nat
  data : List Nat
  length : Nat
deriving DecidableEq, Repr

/-- A hardware register write performed by the I2C driver. -/
inductive I2cOut : Type
  | twcr (v : Nat)
  | twdr (v : Nat)
  | store (v : Nat)
deriving DecidableEq, Repr

/-- The file-scope state of `i2c.c`: free slots of the 32-slot buffer,
the queue (head at the front), and the current TWCR value. -/
structure I2cState : Type where
  free : Nat
  queue : List I2cTxn
  twcr : Nat
deriving DecidableEq, Repr

/-- State after `i2c_init`: all slots free (`i2c_mode = 0`), empty
queue, `TWCR = TWEN | TWIE | TWEA = 0x45`. -/
def i2c_init : I2cState :=
  { free := 32, queue := [], twcr := 69 }

/-- The `enqueue` of `i2c.c`: append at the tail; if the queue was empty
also request a START condition
(`TWCR = TWEN | TWIE | TWEA | TWINT | TWSTA = 0xE5`). -/
def i2c_enqueue (t : I2cTxn) (s : I2cState) : I2cState × List I2cOut :=
  if s.queue = [] then
    ({ free := s.free, queue := [t], twcr := 229 }, [I2cOut.twcr 229])
  else
    ({ s with queue := s.queue ++ [t] }, [])

/-- `i2c_send_to`: claim a slot (`allocate_queue_slot` finds none — here
`free = 0` — when every slot has a non-zero mode, and the call then does
nothing at all), fill it as a master-transmitter transaction and
enqueue.  The C function returns `void`: a dropped request produces no
caller-visible signal. -/
def i2c_send_to (device_address : Nat) (data : List Nat) (length : Nat)
    (s : I2cState) : I2cState × List I2cOut :=
  if s.free = 0 then
    (s, [])
  else
    i2c_enqueue ⟨byte8 device_address, 2, data, byte8 length⟩
      { s with free := s.free - 1 }

/-- The enqueue part of `i2c_receive_from` (the sleep loop then blocks
until the slot is freed): a master-receiver transaction; `data` is the
caller buffer, whose filling is recorded through `store` events. -/
def i2c_receive_from (device_address : Nat) (length : Nat)
    (s : I2cState) : I2cState × List I2cOut :=
  if s.free = 0 then
    (s, [])
  else
    i2c_enqueue ⟨byte8 device_address, 4, [], byte8 length⟩
      { s with free := s.free - 1 }

/-- `master_transmitter_handler` of `i2c.c`, acting on the queue head;
`none` means the handler called `dequeue` (transaction complete — the
queue-level STOP/START writes are added by the interrupt model).  On
data transmitted with ACK (0x28) or NACK (0x30) — treated alike — the
cursor advances and the length decrements (`uint8_t` wrap); when the
length reaches zero the transaction completes, otherwise and on
address-sent (0x18 ACK, 0x20 NACK) the next byte is loaded into TWDR
with `TWCR = TWEN | TWIE | TWINT | TWEA = 0xC5`.  Arbitration-lost
(0x38) and undefined codes only print an error over the UART. -/
def master_transmitter_handler (t : I2cTxn) (status : Nat) :
    Option I2cTxn × List I2cOut :=
  if status = 40 ∨ status = 48 then
    let t2 : I2cTxn :=
      { t with data := t.data.tail, length := dec8 t.length }
    if t2.length = 0 then
      (none, [])
    else
      (some t2, [I2cOut.twdr (byte8 (t2.data.headD 0)), I2cOut.twcr 197])
  else if status = 24 ∨ status = 32 then
    (some t, [I2cOut.twdr (byte8 (t.data.headD 0)), I2cOut.twcr 197])
  else
    (some t, [])

/-- `master_receiver_handler`: on data-received-with-ACK (0x50) store
the byte, advance, and ACK the next byte iff more than one remains
(`TWCR = TWINT | TWEN | TWIE = 0x85`, plus TWEA = 0x40 for ACK); on
address-ACKed (0x40) make the same ACK decision for the first byte; on
data-received-with-NACK (0x58, the last byte) store it and complete.
0x38, 0x48 and undefined codes do nothing. -/
def master_receiver_handler (t : I2cTxn) (status twdr_in : Nat) :
    Option I2cTxn × List I2cOut :=
  if status = 80 then
    let t2 : I2cTxn :=
      { t with data := t.data.tail, length := dec8 t.length }
    let ack := if t2.length > 1 then 64 else 0
    (some t2, [I2cOut.store (byte8 twdr_in), I2cOut.twcr (133 ||| ack)])
  else if status = 64 then
    let ack := if t.length > 1 then 64 else 0
    (some t, [I2cOut.twcr (133 ||| ack)])
  else if status = 88 then
    (none, [I2cOut.store (byte8 twdr_in)])
  else
    (some t, [])

/-- The per-head-transaction part of `ISR (TWI_vect)`: on START or
REPEAT-START sent (0x08/0x10) load SLA+R/W — the address shifted left
with the read bit iff the head is in receiver mode — and continue;
otherwise dispatch on the head transaction mode; an unknown mode only
re-acknowledges the interrupt (`TWCR |= TWINT`). -/
def i2c_item_step (t : I2cTxn) (status twdr_in twcr0 : Nat) :
    Option I2cTxn × List I2cOut :=
  if status = 8 ∨ status = 16 then
    (some t,
      [I2cOut.twdr (byte8 ((t.device_address <<< 1) |||
          (if t.i2c_mode = 4 then 1 else 0))), I2cOut.twcr 197])
  else if t.i2c_mode = 2 then
    master_transmitter_handler t status
  else if t.i2c_mode = 4 then
    master_receiver_handler t status twdr_in
  else
    (some t, [I2cOut.twcr (twcr0 ||| 128)])

/-- The TWCR value after a list of register writes. -/
def last_twcr : List I2cOut → Nat → Nat
  | [], d => d
  | I2cOut.twcr v :: rest, _ => last_twcr rest v
  | _ :: rest, d => last_twcr rest d

/-- Queue-level part of `dequeue` in `i2c.c`: free the head slot
(`i2c_mode = 0`), advance the head; if the queue became empty request a
STOP (`TWCR = 0xD5`, TWSTO set), otherwise the code requests its
"REPEAT START" by setting BOTH TWSTA and TWSTO (`TWCR = 0xF5`). -/
def i2c_dequeue_ctrl (rest : List I2cTxn) : Nat :=
  if rest = [] then 213 else 245

/-- `ISR (TWI_vect)`: with an empty queue just re-acknowledge
(`TWCR |= TWINT`); otherwise run the per-transaction step on the head,
and when it completes perform the queue-level half of `dequeue`. -/
def twi_isr (status twdr_in : Nat) (s : I2cState) :
    I2cState × List I2cOut :=
  match s.queue with
  | [] =>
    (⟨s.free, [], s.twcr ||| 128⟩, [I2cOut.twcr (s.twcr ||| 128)])
  | t :: rest =>
    match i2c_item_step t status twdr_in s.twcr with
    | (some t2, outs) =>
      (⟨s.free, t2 :: rest, last_twcr outs s.twcr⟩, outs)
    | (none, outs) =>
      (⟨s.free + 1, rest, i2c_dequeue_ctrl rest⟩,
        outs ++ [I2cOut.twcr (i2c_dequeue_ctrl rest)])

/-- Feed a list of `(status, TWDR)` hardware events to the TWI
interrupt, collecting all register writes. -/
def i2c_drain (inputs : List (Nat × Nat)) (s : I2cState) :
    I2cState × List I2cOut :=
  match inputs with
  | [] => (s, [])
  | (st, d) :: rest =>
    let r1 := twi_isr st d s
    let r2 := i2c_drain rest r1.1
    (r2.1, r1.2 ++ r2.2)

/-- Bus-level reading of the register-write trace: a TWDR write puts a
byte on the bus; a TWCR write with TWSTA requests a START, with TWSTO a
STOP, and with both a STOP followed by a START (the ATmega TWI transmits
a STOP then a START when both bits are written together). -/
inductive BusEv : Type
  | start
  | stop
  | stopStart
  | byte (v : Nat)
deriving DecidableEq, Repr

/-- Extract the bus conditions and bytes from a register-write trace. -/
def bus_events (outs : List I2cOut) : List BusEv :=
  outs.filterMap fun o =>
    match o with
    | I2cOut.twdr v => some (BusEv.byte v)
    | I2cOut.store _ => none
    | I2cOut.twcr v =>
      if v &&& 32 ≠ 0 ∧ v &&& 16 ≠ 0 then some BusEv.stopStart
      else if v &&& 32 ≠ 0 then some BusEv.start
      else if v &&& 16 ≠ 0 then some BusEv.stop
      else none

/-! ## `uart_getline` (`src/library/uart.c`)

The received byte stream is the list `input` (each `uart_getchar` call
blocks until a byte arrives; an exhausted input means the call never
returns, hence `none`).  The function records every store into the
caller buffer as a `(position, byte)` pair — position 0 is the first
byte of the buffer — and returns the write trace together with the
returned `bytes_read` count. -/

/-- The `while ((*buffer = uart_getchar()) != 0x0D && max_length > 1)`
loop of `uart_getline`, followed by `*(buffer + 1) = 0x00`.  The byte
is stored before the test, the buffer pointer is not advanced on the
exit iteration, and the terminating null byte is written one past the
last stored byte. -/
def uart_getline_go : List Nat → Nat → Nat → Nat →
    Option (List (Nat × Nat) × Nat)
  | [], _, _, _ => none
  | c :: input, max_length, pos, count =>
    if c ≠ 13 ∧ max_length > 1 then
      match uart_getline_go input (max_length - 1) (pos + 1) (count + 1) with
      | none => none
      | some (writes, r) => some ((pos, byte8 c) :: writes, r)
    else
      some ([(pos, byte8 c), (pos + 1, 0)], count)

/-- `uart_getline buffer max_length` on a given received-byte stream. -/
def uart_getline (input : List Nat) (max_length : Nat) :
    Option (List (Nat × Nat) × Nat) :=
  uart_getline_go input max_length 0 0

/-! ## LCD rasterizer (`src/library/graphics.c`)

The display driver collaborators `set_display_window` and
`write_colour` (and through them every write to the panel) are recorded
as events.  The panel extents are the ILI9488 constants of the
repository. -/

/-- `vector_t`: a pair of `uint16_t` screen coordinates. -/
structure Vec : Type where
  column : Nat
  row : Nat
deriving DecidableEq, Repr

/-- Panel extent constants from `src/lcd-panel-intro/ili9488.c`. -/
def screen_rows : Nat := 480

/-- Column extent of the panel. -/
def screen_columns : Nat := 320

/-- A write to the display: an addressing window, or a run of pixels of
one colour. -/
inductive GfxOut : Type
  | window (ll ur : Vec)
  | colour (c : Nat) (count : Nat)
deriving DecidableEq, Repr

/-- Conversion of the `int16_t` length to the `uint32_t` pixel count
parameter of `write_colour`. -/
def to_uint32 (z : Int) : Nat :=
  (z % 4294967296).toNat

/-- `write_pixel`: drop the pixel iff its column exceeds
`screen_columns` or its row exceeds `screen_rows` (note: the strict `>`
comparison means that coordinates equal to the extent pass the check);
otherwise set a one-pixel window and write one colour value. -/
def write_pixel (position : Vec) (colour : Nat) : List GfxOut :=
  if screen_columns < position.column ∨ screen_rows < position.row then
    []
  else
    [GfxOut.window position position, GfxOut.colour colour 1]

/-- `vertical_line`: order the endpoints, set the window spanning them,
and write `|end_row - start_row|` pixels (computed in `uint16_t`, stored
into an `int16_t`, passed as `uint32_t`).  No bounds check. -/
def vertical_line (column start_row end_row colour : Nat) : List GfxOut :=
  let length : Int :=
    int16 (((if end_row ≥ start_row then end_row - start_row
              else start_row - end_row) % 65536 : Nat) : Int)
  let lo := if start_row ≤ end_row then start_row else end_row
  let hi := if end_row ≥ start_row then end_row else start_row
  [GfxOut.window ⟨column, lo⟩ ⟨column, hi⟩,
    GfxOut.colour colour (to_uint32 length)]

/-- `horizontal_line`: the same with the roles of rows and columns
exchanged. -/
def horizontal_line (row start_column end_column colour : Nat) :
    List GfxOut :=
  let length : Int :=
    int16 (((if end_column ≥ start_column then end_column - start_column
              else start_column - end_column) % 65536 : Nat) : Int)
  let lo := if start_column ≤ end_column then start_column else end_column
  let hi := if end_column ≥ start_column then end_column else start_column
  [GfxOut.window ⟨lo, row⟩ ⟨hi, row⟩,
    GfxOut.colour colour (to_uint32 length)]

/-- A `uint16_t` coordinate updated by an `int8_t` step (`cursor.column
+= column_step`), wrapping modulo `2 ^ 16`. -/
def add_wrap16 (a : Nat) (d : Int) : Nat :=
  (((a : Int) + d) % 65536).toNat

/-- The `abs (start - end)` of `write_line`: the operands are
`uint16_t`, so the difference wraps modulo `2 ^ 16` and is then
reinterpreted as a signed 16-bit value before `abs`. -/
def c_abs_diff16 (a b : Nat) : Int :=
  Int.ofNat (int16 (((a + 65536 - b) % 65536 : Nat) : Int)).natAbs

/-- The `for (;;)` loop of `write_line` (Bresenham), with explicit fuel:
plot the cursor pixel; stop at the endpoint; otherwise advance the
column and/or row by the precomputed steps under the error-term tests,
stopping early when the cursor reaches the endpoint column or row.
`none` from a stage means the corresponding `break` was taken. -/
def write_line_loop : Nat → Vec → Vec → Int → Int → Int → Int → Int →
    Nat → List GfxOut
  | 0, _, _, _, _, _, _, _, _ => []
  | fuel + 1, cursor, endp, column_interval, row_interval, column_step,
      row_step, error, colour =>
    let out := write_pixel cursor colour
    if cursor.column = endp.column ∧ cursor.row = endp.row then out
    else
      let e2 := int16 (2 * error)
      let stage1 : Option (Vec × Int) :=
        if e2 ≥ row_interval then
          if cursor.column = endp.column then none
          else some (⟨add_wrap16 cursor.column column_step, cursor.row⟩,
            int16 (error + row_interval))
        else some (cursor, error)
      match stage1 with
      | none => out
      | some (c1, er1) =>
        let stage2 : Option (Vec × Int) :=
          if e2 ≤ column_interval then
            if c1.row = endp.row then none
            else some (⟨c1.column, add_wrap16 c1.row row_step⟩,
              int16 (er1 + column_interval))
          else some (c1, er1)
        match stage2 with
        | none => out
        | some (c2, er2) =>
          out ++ write_line_loop fuel c2 endp column_interval row_interval
            column_step row_step er2 colour

/-- `write_line`: compute the Bresenham parameters from the endpoints
and run the loop. -/
def write_line (start endp : Vec) (colour : Nat) (fuel : Nat) :
    List GfxOut :=
  let column_interval := c_abs_diff16 start.column endp.column
  let column_step : Int := if start.column < endp.column then 1 else -1
  let row_interval := -1 * c_abs_diff16 start.row endp.row
  let row_step : Int := if start.row < endp.row then 1 else -1
  let error := int16 (column_interval + row_interval)
  write_line_loop fuel ⟨start.column, start.row⟩ endp column_interval
    row_interval column_step row_step error colour

/-! ## Single-producer/single-consumer request tracing

Both drivers share the queue discipline: normal context enqueues at the
tail (claiming a pool slot), the interrupt context works on the head
only and dequeues (freeing the slot) when the head request completes.
To state claim C8 the two drivers are run under a common instrumented
machine: each successfully enqueued request receives the next sequence
number, every interrupt that works on a request records `begin`, and
every completion records `complete`. -/

/-- A driver is its per-head-request interrupt step: given the head
item, the driver-global state and the hardware input, it returns the
updated item (`none` = the request completed and is dequeued) and the
updated globals. -/
structure SpscDriver (Item G Inp : Type) : Type where
  step : Item → G → Inp → Option Item × G

/-- Trace events of the instrumented run. -/
inductive SpscEv : Type
  | enq (n : Nat)
  | begin (n : Nat)
  | complete (n : Nat)
deriving DecidableEq, Repr

/-- Instrumented driver state: the pool, the queue of numbered requests,
the driver globals, the next sequence number, the number of completed
requests and the event trace. -/
structure SpscState (Item G : Type) : Type where
  free : Nat
  queue : List (Nat × Item)
  g : G
  next_seq : Nat
  completed : Nat
  trace : List SpscEv

/-- One step of the environment: a producer call enqueueing an item, or
a hardware interrupt. -/
inductive SpscStep (Item Inp : Type) : Type
  | call (item : Item)
  | isr (inp : Inp)

/-- The instrumented step: a call claims a slot and enqueues at the tail
(dropped silently when the pool is exhausted, as both drivers do); an
interrupt runs the driver step on the head only, dequeueing on
completion. -/
def spsc_step {Item G Inp : Type} (M : SpscDriver Item G Inp)
    (s : SpscState Item G) : SpscStep Item Inp → SpscState Item G
  | SpscStep.call item =>
    if s.free = 0 then s
    else
      ⟨s.free - 1, s.queue ++ [(s.next_seq, item)], s.g, s.next_seq + 1,
        s.completed, s.trace ++ [SpscEv.enq s.next_seq]⟩
  | SpscStep.isr inp =>
    match s.queue with
    | [] => s
    | (n, it) :: rest =>
      match M.step it s.g inp with
      | (some it2, g2) =>
        ⟨s.free, (n, it2) :: rest, g2, s.next_seq, s.completed,
          s.trace ++ [SpscEv.begin n]⟩
      | (none, g2) =>
        ⟨s.free + 1, rest, g2, s.next_seq, s.completed + 1,
          s.trace ++ [SpscEv.begin n, SpscEv.complete n]⟩

/-- Run a list of environment steps from the reset state. -/
def spsc_run {Item G Inp : Type} (M : SpscDriver Item G Inp)
    (steps : List (SpscStep Item Inp)) (g0 : G) : SpscState Item G :=
  steps.foldl (spsc_step M) ⟨32, [], g0, 0, 0, []⟩

/-- The UART driver's per-head step (the UDRE interrupt body), with the
shared `digit_mask`/`shift_bits` globals. -/
def uart_driver : SpscDriver UartItem (Nat × Nat) Unit :=
  ⟨fun it g _ =>
    let r := uart_handler_step it g.1 g.2
    (r.item, (r.digit_mask, r.shift_bits))⟩

/-- The I2C driver's per-head step (the TWI interrupt body), with the
TWCR register as the global and `(status, TWDR)` as the hardware
input. -/
def i2c_driver : SpscDriver I2cTxn Nat (Nat × Nat) :=
  ⟨fun t twcr inp =>
    let r := i2c_item_step t inp.1 inp.2 twcr
    (r.1, last_twcr r.2 twcr)⟩

/-- The FIFO trace discipline: reading the trace left to right with `c`
requests completed so far, work may only ever happen on request `c`
(the head), and request `c` is the only one that can complete. -/
def fifo_ok : Nat → List SpscEv → Prop
  | _, [] => True
  | c, SpscEv.enq _ :: rest => fifo_ok c rest
  | c, SpscEv.begin n :: rest => n = c ∧ fifo_ok c rest
  | c, SpscEv.complete n :: rest => n = c ∧ fifo_ok (c + 1) rest

instance (c : Nat) (t : List SpscEv) : Decidable (fifo_ok c t) := by
  induction t generalizing c with
  | nil => exact isTrue trivial
  | cons e rest ih =>
    cases e <;> simp only [fifo_ok] <;> exact (by infer_instance)

/-- Number of `complete` events in a trace. -/
def completes_in : List SpscEv → Nat
  | [] => 0
  | SpscEv.complete _ :: rest => completes_in rest + 1
  | _ :: rest => completes_in rest

/-- Specification-side shape of a vertical run of single-pixel writes:
`k` consecutive pixels in one column starting at row `r0`, each written
as its own one-pixel window (what `write_line` produces on a vertical
segment through `write_pixel`). -/
def pixel_run (c r0 colour : Nat) : Nat → List GfxOut
  | 0 => []
  | k + 1 =>
    GfxOut.window ⟨c, r0⟩ ⟨c, r0⟩ :: GfxOut.colour colour 1 ::
      pixel_run c (r0 + 1) colour k

/-- Recognise the window event of a single plotted pixel. -/
def is_window : GfxOut → Bool
  | GfxOut.window _ _ => true
  | GfxOut.colour _ _ => false

/-! ## Helper lemmas -/

theorem byte8_eq_of_lt {b : Nat} (h : b < 256) : byte8 b = b := by
  simpa [byte8] using Nat.mod_eq_of_lt h

theorem transmit_string_success (t : List Nat) (s : UartState) (h : s.free ≠ 0) :
    transmit_string t s
      = (t.length,
          ⟨s.free - 1, s.queue ++ [UartItem.string t], s.digit_mask,
            s.shift_bits, true⟩) := by
  unfold transmit_string uart_enqueue
  rcases s with ⟨fr, q, m, sh, u⟩
  simp only at h ⊢
  rw [if_neg h]
  rcases q with _ | ⟨i, q⟩ <;> simp

theorem submit_strings_spec (ss : List (List Nat)) :
    ∀ s : UartState, ss.length ≤ s.free →
      (submit_strings ss s).queue = s.queue ++ ss.map UartItem.string ∧
      (submit_strings ss s).free = s.free - ss.length ∧
      (submit_strings ss s).digit_mask = s.digit_mask ∧
      (submit_strings ss s).shift_bits = s.shift_bits := by
  induction ss with
  | nil => intro s _; simp [submit_strings]
  | cons t rest ih =>
    intro s hlen
    have hfree : s.free ≠ 0 := by
      simp only [List.length_cons] at hlen
      omega
    have hstep := transmit_string_success t s hfree
    have := ih ⟨s.free - 1, s.queue ++ [UartItem.string t], s.digit_mask,
      s.shift_bits, true⟩ (by simp only [List.length_cons] at hlen; simpa using by omega)
    simp only [submit_strings, hstep] at *
    refine ⟨?_, ?_, ?_, ?_⟩
    · rw [this.1]; simp
    · rw [this.2.1]; simp only [List.length_cons]; omega
    · exact this.2.2.1
    · exact this.2.2.2

theorem uart_drain_string (t : List Nat) (ht : ∀ b ∈ t, plain_byte b) :
    ∀ (f fr m sh : Nat) (u : Bool) (q : List UartItem),
      uart_drain (t.length + 1 + f) ⟨fr, UartItem.string t :: q, m, sh, u⟩
        = (t ++ (uart_drain f ⟨fr + 1, q, m, sh, u⟩).1,
            (uart_drain f ⟨fr + 1, q, m, sh, u⟩).2) := by
  induction t with
  | nil =>
    intro f fr m sh u q
    rw [show ([] : List Nat).length + 1 + f = f + 1 from by simp [Nat.add_comm]]
    simp [uart_drain, udre_isr, uart_apply_res, uart_handler_step,
      string_transmit_handler]
  | cons c t ih =>
    intro f fr m sh u q
    obtain ⟨hc0, hc37, hc256⟩ := ht c (by simp)
    have harith : (c :: t).length + 1 + f = (t.length + 1 + f) + 1 := by
      simp; omega
    rw [harith]
    have hstep :
        udre_isr ⟨fr, UartItem.string (c :: t) :: q, m, sh, u⟩
          = (⟨fr, UartItem.string t :: q, m, sh, u⟩, some c) := by
      simp [udre_isr, uart_apply_res, uart_handler_step,
        string_transmit_handler, hc37, byte8_eq_of_lt hc256]
    simp only [uart_drain, hstep]
    rw [ih (fun b hb => ht b (by simp [hb])) f fr m sh u q]
    simp

theorem uart_drain_string_list (ss : List (List Nat))
    (hss : ∀ t ∈ ss, ∀ b ∈ t, plain_byte b) :
    ∀ (fr m sh : Nat) (u : Bool),
      uart_drain (strings_fuel ss) ⟨fr, ss.map UartItem.string, m, sh, u⟩
        = (ss.flatten, ⟨fr + ss.length, [], m, sh, u⟩) := by
  induction ss with
  | nil => intro fr m sh u; simp [strings_fuel, uart_drain]
  | cons t rest ih =>
    intro fr m sh u
    have hfuel : strings_fuel (t :: rest) = t.length + 1 + strings_fuel rest := by
      simp [strings_fuel]
    rw [hfuel]
    simp only [List.map_cons]
    rw [uart_drain_string t (hss t (by simp)) (strings_fuel rest) fr m sh u
      (rest.map UartItem.string)]
    rw [ih (fun s hs => hss s (by simp [hs])) (fr + 1) m sh u]
    simp only [List.flatten_cons, List.length_cons]
    rw [show fr + 1 + rest.length = fr + (rest.length + 1) from by omega]

theorem nat_and_shiftRight (x y k : Nat) :
    (x &&& y) >>> k = (x >>> k) &&& (y >>> k) := by
  apply Nat.eq_of_testBit_eq
  intro i
  simp [Nat.testBit_shiftRight, Nat.testBit_and]

theorem nibble_extract (v k : Nat) :
    (v &&& (15 * 2 ^ k)) >>> k = v / 2 ^ k % 16 := by
  rw [nat_and_shiftRight]
  have h15 : (15 * 2 ^ k) >>> k = 15 := by
    rw [Nat.shiftRight_eq_div_pow]
    exact Nat.mul_div_cancel _ (Nat.pow_pos (by norm_num))
  rw [h15, Nat.shiftRight_eq_div_pow,
    show (15 : Nat) = 2 ^ 4 - 1 from rfl, Nat.and_pow_two_sub_one_eq_mod]

theorem bits16_int16 (v : Nat) (hv : v < 65536) :
    bits16 (int16 (v : Int)) = v := by
  unfold bits16 int16
  rw [show (let r := (v : Int) % 65536;
      if r < 32768 then r else r - 65536)
      = if (v : Int) % 65536 < 32768 then (v : Int) % 65536
        else (v : Int) % 65536 - 65536 from rfl]
  split <;> omega

theorem digit_map_getD_eq_hex_char :
    ∀ d, d < 16 → digit_map.getD d 0 = hex_digit_char d := by decide

theorem uart_drain_zero (s : UartState) : uart_drain 0 s = ([], s) := rfl

theorem uart_drain_succ (f : Nat) (s : UartState) :
    uart_drain (f + 1) s
      = ((udre_isr s).2.toList ++ (uart_drain f (udre_isr s).1).1,
          (uart_drain f (udre_isr s).1).2) := rfl

theorem uart_hex_step (z : Int) (mask shift m2 sh2 : Nat) (fr : Nat)
    (u : Bool) (q : List UartItem) (hm : mask ≠ 0) (hm1 : mask >>> 4 = m2)
    (hm2 : m2 ≠ 0) (hsh : dec16by4 shift = sh2) :
    udre_isr ⟨fr, UartItem.intHex z :: q, mask, shift, u⟩
      = (⟨fr, UartItem.intHex z :: q, m2, sh2, u⟩,
          some (digit_map.getD (byte8 ((bits16 z &&& mask) >>> shift)) 0)) := by
  simp only [udre_isr, uart_handler_step]
  rw [show hexadecimal_transmit_handler z mask shift
      = ⟨some (UartItem.intHex z), m2, sh2,
          some (digit_map.getD (byte8 ((bits16 z &&& mask) >>> shift)) 0)⟩ from by
    simp [hexadecimal_transmit_handler, hm, hm1, hm2, hsh]]
  simp [uart_apply_res]

theorem uart_hex_step_first (z : Int) (shift fr : Nat) (u : Bool)
    (q : List UartItem) :
    udre_isr ⟨fr, UartItem.intHex z :: q, 0, shift, u⟩
      = (⟨fr, UartItem.intHex z :: q, 3840, 8, u⟩,
          some (digit_map.getD (byte8 ((bits16 z &&& 61440) >>> 12)) 0)) := by
  simp only [udre_isr, uart_handler_step]
  rw [show hexadecimal_transmit_handler z 0 shift
      = ⟨some (UartItem.intHex z), 3840, 8,
          some (digit_map.getD (byte8 ((bits16 z &&& 61440) >>> 12)) 0)⟩ from by
    simp [hexadecimal_transmit_handler, dec16by4]]
  simp [uart_apply_res]

theorem uart_hex_step_last (z : Int) (fr : Nat) (u : Bool)
    (q : List UartItem) :
    udre_isr ⟨fr, UartItem.intHex z :: q, 15, 0, u⟩
      = (⟨fr + 1, q, 0, 65532, u⟩,
          some (digit_map.getD (byte8 ((bits16 z &&& 15) >>> 0)) 0)) := by
  simp only [udre_isr, uart_handler_step]
  rw [show hexadecimal_transmit_handler z 15 0
      = ⟨none, 0, 65532,
          some (digit_map.getD (byte8 ((bits16 z &&& 15) >>> 0)) 0)⟩ from by
    simp [hexadecimal_transmit_handler, dec16by4]]
  simp [uart_apply_res]

theorem uart_drain_hex_item (z : Int) (fr : Nat) (u : Bool) :
    uart_drain 4 ⟨fr, [UartItem.intHex z], 0, 0, u⟩
      = ([digit_map.getD (byte8 ((bits16 z &&& 61440) >>> 12)) 0,
          digit_map.getD (byte8 ((bits16 z &&& 3840) >>> 8)) 0,
          digit_map.getD (byte8 ((bits16 z &&& 240) >>> 4)) 0,
          digit_map.getD (byte8 ((bits16 z &&& 15) >>> 0)) 0],
        ⟨fr + 1, [], 0, 65532, u⟩) := by
  have h1 := uart_hex_step_first z 0 fr u ([] : List UartItem)
  have h2 := uart_hex_step z 3840 8 240 4 fr u ([] : List UartItem)
    (by norm_num) (by simp) (by norm_num) (by simp [dec16by4])
  have h3 := uart_hex_step z 240 4 15 0 fr u ([] : List UartItem)
    (by norm_num) (by simp) (by norm_num) (by simp [dec16by4])
  have h4 := uart_hex_step_last z fr u ([] : List UartItem)
  have d1 : uart_drain 1 ⟨fr, [UartItem.intHex z], 15, 0, u⟩
      = ([digit_map.getD (byte8 ((bits16 z &&& 15) >>> 0)) 0],
          ⟨fr + 1, [], 0, 65532, u⟩) := by
    show uart_drain (0 + 1) _ = _
    rw [uart_drain_succ, h4]
    dsimp only
    rw [uart_drain_zero]
    rfl
  have d2 : uart_drain 2 ⟨fr, [UartItem.intHex z], 240, 4, u⟩
      = (digit_map.getD (byte8 ((bits16 z &&& 240) >>> 4)) 0
          :: [digit_map.getD (byte8 ((bits16 z &&& 15) >>> 0)) 0],
          ⟨fr + 1, [], 0, 65532, u⟩) := by
    show uart_drain (1 + 1) _ = _
    rw [uart_drain_succ, h3]
    dsimp only
    rw [d1]
    rfl
  have d3 : uart_drain 3 ⟨fr, [UartItem.intHex z], 3840, 8, u⟩
      = (digit_map.getD (byte8 ((bits16 z &&& 3840) >>> 8)) 0
          :: digit_map.getD (byte8 ((bits16 z &&& 240) >>> 4)) 0
          :: [digit_map.getD (byte8 ((bits16 z &&& 15) >>> 0)) 0],
          ⟨fr + 1, [], 0, 65532, u⟩) := by
    show uart_drain (2 + 1) _ = _
    rw [uart_drain_succ, h2]
    dsimp only
    rw [d2]
    rfl
  show uart_drain (3 + 1) _ = _
  rw [uart_drain_succ, h1]
  dsimp only
  rw [d3]
  rfl

theorem hex_digit_emit (v k : Nat) :
    digit_map.getD (byte8 ((v &&& (15 * 2 ^ k)) >>> k)) 0
      = hex_digit_char (v / 2 ^ k % 16) := by
  rw [nibble_extract]
  rw [byte8_eq_of_lt (lt_trans (Nat.mod_lt _ (by norm_num)) (by norm_num))]
  exact digit_map_getD_eq_hex_char _ (Nat.mod_lt _ (by norm_num))

/-! ## Claim theorems: UART transmit formatting -/

/-- C1 (amended): for every sequence of at most 32 `transmit_string`
calls whose strings consist of plain bytes (non-null, 8-bit, and not the
`%` format-escape character), draining the UDRE interrupt emits exactly
the concatenation of the submitted strings — every byte of every string,
in submission order, once per call, with no interleaving between
requests. -/
theorem uart_strings_emitted_in_order (ss : List (List Nat))
    (hlen : ss.length ≤ 32)
    (hbytes : ∀ t ∈ ss, ∀ b ∈ t, plain_byte b) :
    (uart_drain (strings_fuel ss) (submit_strings ss uart_init)).1
        = ss.flatten ∧
    (uart_drain (strings_fuel ss) (submit_strings ss uart_init)).2.queue
        = [] := by
  obtain ⟨hq, hf, hm, hsh⟩ :=
    submit_strings_spec ss uart_init (by simpa [uart_init] using hlen)
  have hs : submit_strings ss uart_init
      = ⟨32 - ss.length, ss.map UartItem.string, 0, 0,
          (submit_strings ss uart_init).udre⟩ := by
    ext1
    · rw [hf]; rfl
    · rw [hq]; simp [uart_init]
    · rw [hm]; rfl
    · rw [hsh]; rfl
    · rfl
  rw [hs, uart_drain_string_list ss hbytes (32 - ss.length) 0 0
    (submit_strings ss uart_init).udre]
  simp

/-- Witness for C1 at `ss = ["hi", "!"]` (byte values). -/
theorem uart_strings_emitted_in_order_witness :
    (uart_drain (strings_fuel [[104, 105], [33]])
        (submit_strings [[104, 105], [33]] uart_init)).1
      = [104, 105, 33] := by
  have h := uart_strings_emitted_in_order [[104, 105], [33]]
    (by decide) (by decide)
  simpa using h.1

/-- C1 counterexample: the string `"a%b"` is submitted once, fully
drained (the queue empties), yet only the byte `a` is emitted: the `%`
format-stop in `string_transmit_handler` drops the rest, so the emitted
stream is not the submitted content. -/
theorem uart_percent_string_truncated :
    (uart_drain 4 (transmit_string [97, 37, 98] uart_init).2).1 = [97] ∧
    (uart_drain 4 (transmit_string [97, 37, 98] uart_init).2).2.queue = [] ∧
    (uart_drain 4 (transmit_string [97, 37, 98] uart_init).2).1
      ≠ [[97, 37, 98]].flatten := by decide

/-- C4: `transmit_int (-32768, DECIMAL)` never completes.  The handler
emits `-` and executes `data->number *= -1`, which overflows the 16-bit
`int` back to `-32768`, so every subsequent interrupt emits another `-`
and the request never leaves the queue. -/
theorem transmit_int_min_diverges :
    ∀ k : Nat,
      uart_drain k (transmit_int (-32768) 10 uart_init).2
        = (List.replicate k 45, (transmit_int (-32768) 10 uart_init).2) := by
  have hS : (transmit_int (-32768) 10 uart_init).2
      = ⟨31, [UartItem.intDec (-32768)], 0, 0, true⟩ := by decide
  rw [hS]
  intro k
  induction k with
  | zero => rfl
  | succ k ih =>
    have hstep : udre_isr ⟨31, [UartItem.intDec (-32768)], 0, 0, true⟩
        = (⟨31, [UartItem.intDec (-32768)], 0, 0, true⟩, some 45) := by decide
    rw [show k + 1 = k + 1 from rfl, uart_drain_succ, hstep]
    dsimp only
    rw [ih]
    simp [List.replicate_succ]

/-- C5: for every `v < 65536`, `transmit_int(v, HEX)` (the C `int`
argument carries the 16-bit pattern of `v`) drains to exactly `0x`
followed by the four zero-padded uppercase hexadecimal digits of `v`. -/
theorem transmit_int_hex_format (v : Nat) (hv : v < 65536) :
    (uart_drain 7 (transmit_int (int16 (v : Int)) 16 uart_init).2).1
      = spec_hex16 v ∧
    (uart_drain 7 (transmit_int (int16 (v : Int)) 16 uart_init).2).2.queue
      = [] := by
  have hS : (transmit_int (int16 (v : Int)) 16 uart_init).2
      = ⟨30, [UartItem.string [48, 120], UartItem.intHex (int16 (v : Int))],
          0, 0, true⟩ := by
    simp [transmit_int, transmit_string, uart_enqueue, uart_init]
  rw [hS]
  rw [show (7 : Nat) = [48, 120].length + 1 + 4 from rfl]
  rw [uart_drain_string [48, 120] (by decide) 4 30 0 0 true
    [UartItem.intHex (int16 (v : Int))]]
  rw [uart_drain_hex_item (int16 (v : Int)) _ true]
  have hb := bits16_int16 v hv
  have e1 : digit_map.getD (byte8 ((v &&& 61440) >>> 12)) 0
      = hex_digit_char (v / 4096 % 16) := by
    rw [show (61440 : Nat) = 15 * 2 ^ 12 from by norm_num, hex_digit_emit v 12]
    norm_num
  have e2 : digit_map.getD (byte8 ((v &&& 3840) >>> 8)) 0
      = hex_digit_char (v / 256 % 16) := by
    rw [show (3840 : Nat) = 15 * 2 ^ 8 from by norm_num, hex_digit_emit v 8]
    norm_num
  have e3 : digit_map.getD (byte8 ((v &&& 240) >>> 4)) 0
      = hex_digit_char (v / 16 % 16) := by
    rw [show (240 : Nat) = 15 * 2 ^ 4 from by norm_num, hex_digit_emit v 4]
    norm_num
  have e4 : digit_map.getD (byte8 ((v &&& 15) >>> 0)) 0
      = hex_digit_char (v % 16) := by
    rw [show (15 : Nat) = 15 * 2 ^ 0 from by norm_num, hex_digit_emit v 0]
    norm_num
  rw [hb] at *
  constructor
  · dsimp only
    rw [e1, e2, e3, e4]
    rfl
  · rfl

/-- Witness for C5 at `v = 0xBEEF`: the drained stream is `0xBEEF`. -/
theorem transmit_int_hex_format_witness :
    (uart_drain 7 (transmit_int (int16 ((48879 : Nat) : Int)) 16 uart_init).2).1
      = [48, 120, 66, 69, 69, 70] := by
  have h := transmit_int_hex_format 48879 (by norm_num)
  rw [h.1]
  decide

/-! ## Claim theorems: I2C bus framing, pool exhaustion, getline,
rasterizer bounds -/

/-- C2: sending the 2-byte buffer `[0x00, 0xFE]` to `addr` from an idle
driver and draining the TWI interrupt with the status codes the hardware
reports (0x08 START sent, 0x18 SLA+W ACKed, 0x28 data ACKed twice)
produces exactly START, the address byte `(addr << 1) | 0`, the data
bytes 0x00 and 0xFE, and a STOP when the queue drains — and no other
bus event. -/
theorem i2c_send_two_byte_framing :
    ∀ addr : Nat, addr < 128 →
      bus_events ((i2c_send_to addr [0, 254] 2 i2c_init).2
          ++ (i2c_drain [(8, 0), (24, 0), (40, 0), (40, 0)]
                (i2c_send_to addr [0, 254] 2 i2c_init).1).2)
        = [BusEv.start, BusEv.byte (2 * addr), BusEv.byte 0,
            BusEv.byte 254, BusEv.stop] ∧
      (i2c_drain [(8, 0), (24, 0), (40, 0), (40, 0)]
          (i2c_send_to addr [0, 254] 2 i2c_init).1).1.queue = [] := by
  decide

/-- Witness for C2 at `addr = 0x35`. -/
theorem i2c_send_two_byte_framing_witness :
    bus_events ((i2c_send_to 53 [0, 254] 2 i2c_init).2
        ++ (i2c_drain [(8, 0), (24, 0), (40, 0), (40, 0)]
              (i2c_send_to 53 [0, 254] 2 i2c_init).1).2)
      = [BusEv.start, BusEv.byte 106, BusEv.byte 0, BusEv.byte 254,
          BusEv.stop] := by
  have h := i2c_send_two_byte_framing 53 (by norm_num)
  simpa using h.1

/-- C3: queuing two one-byte writes back to back and draining the
interrupt shows the control write at the transaction boundary carrying
BOTH the start-request and the stop-request bit (`TWCR = 0xF5`,
TWSTA | TWSTO): on the TWI hardware this transmits a STOP followed by a
START, so a STOP does intervene between the two transactions, contrary
to the repeat-start the code's own comment announces. -/
theorem i2c_back_to_back_boundary :
    bus_events ((i2c_send_to 33 [17] 1 i2c_init).2
        ++ (i2c_send_to 34 [51] 1 (i2c_send_to 33 [17] 1 i2c_init).1).2
        ++ (i2c_drain [(8, 0), (24, 0), (40, 0), (8, 0), (24, 0), (40, 0)]
              (i2c_send_to 34 [51] 1 (i2c_send_to 33 [17] 1 i2c_init).1).1).2)
      = [BusEv.start, BusEv.byte 66, BusEv.byte 17, BusEv.stopStart,
          BusEv.byte 68, BusEv.byte 51, BusEv.stop] := by
  decide

/-- C6 (amended): a call on an exhausted pool is dropped without
touching the pool or the queued requests; the UART call reports it by
returning 0, the I2C call (a `void` function) gives no signal and emits
nothing; and any call preserves `free + queued = 32` (the pool never
overflows its 32 slots). -/
theorem pool_exhaustion_reporting :
    (∀ (s : UartState) (m : List Nat),
        s.free = 0 → transmit_string m s = (0, s)) ∧
    (∀ (s : I2cState) (a l : Nat) (d : List Nat),
        s.free = 0 → i2c_send_to a d l s = (s, [])) ∧
    (∀ (s : UartState) (m : List Nat), s.free + s.queue.length = 32 →
        (transmit_string m s).2.free
            + (transmit_string m s).2.queue.length = 32) ∧
    (∀ (s : I2cState) (a l : Nat) (d : List Nat),
        s.free + s.queue.length = 32 →
        (i2c_send_to a d l s).1.free
            + (i2c_send_to a d l s).1.queue.length = 32) := by
  refine ⟨?_, ?_, ?_, ?_⟩
  · intro s m h
    simp [transmit_string, h]
  · intro s a l d h
    simp [i2c_send_to, h]
  · intro s m h
    by_cases h0 : s.free = 0
    · simpa [transmit_string, h0] using h
    · simp only [transmit_string, h0, if_false, uart_enqueue]
      split <;> rename_i hq <;> simp [hq] at h ⊢ <;> omega
  · intro s a l d h
    by_cases h0 : s.free = 0
    · simpa [i2c_send_to, h0] using h
    · simp only [i2c_send_to, h0, if_false, i2c_enqueue]
      split <;> rename_i hq <;> simp [hq] at h ⊢ <;> omega

/-- Witness for C6: a pool of 32 queued requests and zero free slots
drops a further UART and I2C request unchanged, and the occupancy stays
at 32. -/
theorem pool_exhaustion_reporting_witness :
    transmit_string [104]
        ⟨0, List.replicate 32 (UartItem.string [104]), 0, 0, true⟩
      = (0, ⟨0, List.replicate 32 (UartItem.string [104]), 0, 0, true⟩) ∧
    i2c_send_to 16 [1] 1 ⟨0, List.replicate 32 ⟨16, 2, [0], 1⟩, 69⟩
      = (⟨0, List.replicate 32 ⟨16, 2, [0], 1⟩, 69⟩, []) ∧
    (transmit_string [104]
        ⟨0, List.replicate 32 (UartItem.string [104]), 0, 0, true⟩).2.free
      + (transmit_string [104]
          ⟨0, List.replicate 32 (UartItem.string [104]),
            0, 0, true⟩).2.queue.length = 32 := by
  refine ⟨pool_exhaustion_reporting.1 _ _ rfl,
    pool_exhaustion_reporting.2.1 _ _ _ _ rfl,
    pool_exhaustion_reporting.2.2.1 _ _ (by decide)⟩

/-- C6 counterexample: on a full pool, `i2c_send_to` is a complete
no-op — the state is unchanged and no register write occurs — and being
a `void` function it returns nothing, so the dropped request is NOT
reported to the caller in any way. -/
theorem i2c_send_full_pool_silent :
    i2c_send_to 16 [1] 1 ⟨0, List.replicate 32 ⟨16, 2, [0], 1⟩, 69⟩
      = (⟨0, List.replicate 32 ⟨16, 2, [0], 1⟩, 69⟩, []) := by decide

/-- C7: with `max_length = 2` and the received bytes `a`, `b` (no
carriage return among the first two), `uart_getline` stores both bytes
at offsets 0 and 1 — filling the whole buffer — and then writes the
terminating null byte at offset 2 = `max_length`, one byte PAST the end
of the caller's buffer, returning `bytes_read = 1`. -/
theorem uart_getline_writes_past_buffer :
    uart_getline [97, 98] 2 = some ([(0, 97), (1, 98), (2, 0)], 1) := by
  decide

/-- C9 counterexample: the pixel at `(screen_columns, screen_rows)` =
`(320, 480)` — one past the last valid coordinate (319, 479) in both
axes — passes the strict `>` bounds check of `write_pixel` and IS
written to the display; and `vertical_line` performs no bounds check at
all, emitting display writes for a column entirely off the panel. -/
theorem write_pixel_extent_not_dropped :
    write_pixel ⟨screen_columns, screen_rows⟩ 7 ≠ [] ∧
    vertical_line 1000 0 5 1 ≠ [] := by decide

/-- C9 (amended): only `write_pixel` bounds-checks its coordinate, and
it drops the pixel exactly when the column strictly exceeds
`screen_columns` or the row strictly exceeds `screen_rows` — so the
off-by-one coordinates equal to the extents are still written — while
the axis-aligned fast paths `vertical_line` and `horizontal_line` always
write to the display, with no bounds check. -/
theorem pixel_bounds_checks :
    (∀ (p : Vec) (c : Nat),
        screen_columns < p.column ∨ screen_rows < p.row →
        write_pixel p c = []) ∧
    (∀ (p : Vec) (c : Nat),
        p.column ≤ screen_columns → p.row ≤ screen_rows →
        write_pixel p c = [GfxOut.window p p, GfxOut.colour c 1]) ∧
    (∀ (column r1 r2 c : Nat), vertical_line column r1 r2 c ≠ []) ∧
    (∀ (row c1 c2 c : Nat), horizontal_line row c1 c2 c ≠ []) := by
  refine ⟨?_, ?_, ?_, ?_⟩
  · intro p c h
    simp [write_pixel, h]
  · intro p c h1 h2
    simp [write_pixel]
    omega
  · intro column r1 r2 c
    simp [vertical_line]
  · intro row c1 c2 c
    simp [horizontal_line]

/-- Witness for C9 (amended): a pixel beyond the extent is dropped, one
at the extent is written, and both fast paths write without a check. -/
theorem pixel_bounds_checks_witness :
    write_pixel ⟨400, 10⟩ 1 = [] ∧
    write_pixel ⟨320, 480⟩ 1
      = [GfxOut.window ⟨320, 480⟩ ⟨320, 480⟩, GfxOut.colour 1 1] ∧
    vertical_line 1000 0 5 2 ≠ [] ∧
    horizontal_line 1000 0 5 2 ≠ [] := by
  refine ⟨pixel_bounds_checks.1 _ _ (by decide),
    pixel_bounds_checks.2.1 _ _ (by decide) (by decide),
    pixel_bounds_checks.2.2.1 _ _ _ _,
    pixel_bounds_checks.2.2.2 _ _ _ _⟩

/-! ## Claim theorems: FIFO completion order (C8) -/

theorem completes_in_append (t u : List SpscEv) :
    completes_in (t ++ u) = completes_in t + completes_in u := by
  induction t with
  | nil => simp [completes_in]
  | cons e rest ih =>
    cases e <;> (simp [completes_in, ih]; try omega)

theorem fifo_ok_append (t u : List SpscEv) :
    ∀ c, fifo_ok c (t ++ u) ↔
      fifo_ok c t ∧ fifo_ok (c + completes_in t) u := by
  induction t with
  | nil => intro c; simp [fifo_ok, completes_in]
  | cons e rest ih =>
    intro c
    cases e with
    | enq n => simp [fifo_ok, completes_in, ih]
    | begin n => simp [fifo_ok, completes_in, ih, and_assoc]
    | complete n =>
      simp only [List.cons_append, fifo_ok, completes_in, List.append_eq]
      rw [ih (c + 1)]
      constructor
      · rintro ⟨hnc, hok, hu⟩
        refine ⟨⟨hnc, hok⟩, ?_⟩
        rw [show c + (completes_in rest + 1) = c + 1 + completes_in rest
          from by omega]
        exact hu
      · rintro ⟨⟨hnc, hok⟩, hu⟩
        refine ⟨hnc, hok, ?_⟩
        rw [show c + 1 + completes_in rest = c + (completes_in rest + 1)
          from by omega]
        exact hu

/-- The instrumented-state invariant: the queued sequence numbers are
exactly `completed, completed + 1, …, next_seq - 1` in order, the trace
satisfies the FIFO discipline, and the completed counter counts the
`complete` events. -/
def spsc_inv {Item G : Type} (s : SpscState Item G) : Prop :=
  s.queue.map Prod.fst = List.range' s.completed (s.next_seq - s.completed) ∧
  s.completed ≤ s.next_seq ∧
  completes_in s.trace = s.completed ∧
  fifo_ok 0 s.trace

theorem spsc_step_inv {Item G Inp : Type} (M : SpscDriver Item G Inp)
    (s : SpscState Item G) (st : SpscStep Item Inp) (h : spsc_inv s) :
    spsc_inv (spsc_step M s st) := by
  obtain ⟨h1, h2, h3, h4⟩ := h
  cases st with
  | call item =>
    by_cases h0 : s.free = 0
    · simpa [spsc_step, h0] using ⟨h1, h2, h3, h4⟩
    · refine ⟨?_, ?_, ?_, ?_⟩ <;>
        simp only [spsc_step, h0, if_false]
      · simp only [List.map_append, List.map_cons, List.map_nil, h1]
        rw [show s.next_seq + 1 - s.completed
          = (s.next_seq - s.completed) + 1 from by omega, List.range'_concat]
        simp only [Nat.one_mul]
        rw [show s.completed + (s.next_seq - s.completed) = s.next_seq
          from by omega]
      · omega
      · rw [completes_in_append, h3]; rfl
      · rw [fifo_ok_append]
        exact ⟨h4, trivial⟩
  | isr inp =>
    rcases hq : s.queue with _ | ⟨⟨n, it⟩, rest⟩
    · simpa [spsc_step, hq] using ⟨by simpa [hq] using h1, h2, h3, h4⟩
    · obtain ⟨k, hk1⟩ : ∃ k, s.next_seq - s.completed = k + 1 := by
        refine ⟨s.next_seq - s.completed - 1, ?_⟩
        rcases Nat.eq_zero_or_pos (s.next_seq - s.completed) with hz | hp
        · rw [hq, hz] at h1; simp at h1
        · omega
      have hmap : n :: rest.map Prod.fst
          = s.completed :: List.range' (s.completed + 1) k := by
        rw [show (n :: rest.map Prod.fst : List Nat)
            = ((n, it) :: rest).map Prod.fst from rfl, ← hq, h1, hk1,
          List.range'_succ]
      have hn : n = s.completed := by injection hmap
      have hrest : rest.map Prod.fst
          = List.range' (s.completed + 1) k := by injection hmap
      rcases hstep : M.step it s.g inp with ⟨r, g2⟩
      rcases r with _ | it2
      · refine ⟨?_, ?_, ?_, ?_⟩ <;>
          simp only [spsc_step, hq, hstep]
        · rw [hrest, show s.next_seq - (s.completed + 1) = k from by omega]
        · omega
        · rw [completes_in_append, h3]; rfl
        · rw [fifo_ok_append]
          refine ⟨h4, ?_⟩
          simp only [h3, fifo_ok, Nat.zero_add]
          exact ⟨hn, hn, trivial⟩
      · refine ⟨?_, ?_, ?_, ?_⟩ <;>
          simp only [spsc_step, hq, hstep]
        · simpa using by rw [← h1, hq]; rfl
        · exact h2
        · rw [completes_in_append, h3]; rfl
        · rw [fifo_ok_append]
          refine ⟨h4, ?_⟩
          simp only [h3, fifo_ok, Nat.zero_add]
          exact ⟨hn, trivial⟩

theorem spsc_run_inv {Item G Inp : Type} (M : SpscDriver Item G Inp)
    (steps : List (SpscStep Item Inp)) (g0 : G) :
    spsc_inv (spsc_run M steps g0) := by
  have hinit : spsc_inv (⟨32, [], g0, 0, 0, []⟩ : SpscState Item G) :=
    ⟨rfl, Nat.le_refl 0, rfl, trivial⟩
  rw [spsc_run]
  generalize (⟨32, [], g0, 0, 0, []⟩ : SpscState Item G) = s0 at hinit
  induction steps generalizing s0 with
  | nil => simpa using hinit
  | cons st rest ih =>
    simp only [List.foldl_cons]
    exact ih _ (spsc_step_inv M s0 st hinit)

theorem fifo_ok_complete_mem (b : Nat) (ev : SpscEv)
    (hev : ev = SpscEv.begin b ∨ ev = SpscEv.complete b) :
    ∀ (t1 : List SpscEv) (c : Nat) (t2 : List SpscEv),
      fifo_ok c (t1 ++ ev :: t2) →
      ∀ a, c ≤ a → a < b → SpscEv.complete a ∈ t1 := by
  intro t1
  induction t1 with
  | nil =>
    intro c t2 h a hca hab
    exfalso
    rcases hev with hev | hev <;> rw [hev] at h <;>
      simp only [List.nil_append, fifo_ok] at h <;> omega
  | cons e rest ih =>
    intro c t2 h a hca hab
    cases e with
    | enq m =>
      simp only [List.cons_append, fifo_ok] at h
      exact List.mem_cons_of_mem _ (ih c t2 h a hca hab)
    | begin m =>
      simp only [List.cons_append, fifo_ok] at h
      exact List.mem_cons_of_mem _ (ih c t2 h.2 a hca hab)
    | complete m =>
      simp only [List.cons_append, fifo_ok] at h
      by_cases ha : a = c
      · rw [ha, ← h.1]
        exact List.mem_cons_self _ _
      · exact List.mem_cons_of_mem _
          (ih (c + 1) t2 h.2 a (by omega) hab)

/-- C8: under the single-producer/single-consumer step relation — any
interleaving of enqueue calls and interrupt invocations — both the UART
driver and the I2C driver complete requests strictly in enqueue order:
whenever the interrupt performs any work on (`begin`), or completes,
the request with sequence number `b`, every request enqueued before it
(sequence number `a < b`) has already completed earlier in the trace. -/
theorem requests_complete_in_fifo_order :
    (∀ (steps : List (SpscStep UartItem Unit)) (t1 t2 : List SpscEv)
        (b a : Nat),
        (spsc_run uart_driver steps (0, 0)).trace
            = t1 ++ SpscEv.begin b :: t2 →
        a < b → SpscEv.complete a ∈ t1) ∧
    (∀ (steps : List (SpscStep UartItem Unit)) (t1 t2 : List SpscEv)
        (b a : Nat),
        (spsc_run uart_driver steps (0, 0)).trace
            = t1 ++ SpscEv.complete b :: t2 →
        a < b → SpscEv.complete a ∈ t1) ∧
    (∀ (steps : List (SpscStep I2cTxn (Nat × Nat))) (t1 t2 : List SpscEv)
        (b a : Nat),
        (spsc_run i2c_driver steps 69).trace
            = t1 ++ SpscEv.begin b :: t2 →
        a < b → SpscEv.complete a ∈ t1) ∧
    (∀ (steps : List (SpscStep I2cTxn (Nat × Nat))) (t1 t2 : List SpscEv)
        (b a : Nat),
        (spsc_run i2c_driver steps 69).trace
            = t1 ++ SpscEv.complete b :: t2 →
        a < b → SpscEv.complete a ∈ t1) := by
  refine ⟨?_, ?_, ?_, ?_⟩
  all_goals intro steps t1 t2 b a htr hab
  · have h := (spsc_run_inv uart_driver steps (0, 0)).2.2.2
    rw [htr] at h
    exact fifo_ok_complete_mem b _ (Or.inl rfl) t1 0 t2 h a (by omega) hab
  · have h := (spsc_run_inv uart_driver steps (0, 0)).2.2.2
    rw [htr] at h
    exact fifo_ok_complete_mem b _ (Or.inr rfl) t1 0 t2 h a (by omega) hab
  · have h := (spsc_run_inv i2c_driver steps 69).2.2.2
    rw [htr] at h
    exact fifo_ok_complete_mem b _ (Or.inl rfl) t1 0 t2 h a (by omega) hab
  · have h := (spsc_run_inv i2c_driver steps 69).2.2.2
    rw [htr] at h
    exact fifo_ok_complete_mem b _ (Or.inr rfl) t1 0 t2 h a (by omega) hab

/-- Witness for C8: two UART string requests; the interrupt that first
works on request 1 is preceded by the completion of request 0. -/
theorem requests_complete_in_fifo_order_witness :
    SpscEv.complete 0 ∈ [SpscEv.enq 0, SpscEv.enq 1, SpscEv.begin 0,
        SpscEv.begin 0, SpscEv.complete 0] :=
  requests_complete_in_fifo_order.1
    [SpscStep.call (UartItem.string [97]),
      SpscStep.call (UartItem.string [98]),
      SpscStep.isr (), SpscStep.isr (), SpscStep.isr ()]
    [SpscEv.enq 0, SpscEv.enq 1, SpscEv.begin 0, SpscEv.begin 0,
      SpscEv.complete 0]
    [] 1 0 (by decide) (by decide)

/-! ## Claim theorems: rasterizer pixel counts (C10) -/

theorem int16_coe_small (n : Nat) (h : n < 32768) :
    int16 (n : Int) = (n : Int) := by
  unfold int16
  rw [show (let r := (n : Int) % 65536;
      if r < 32768 then r else r - 65536)
      = if (n : Int) % 65536 < 32768 then (n : Int) % 65536
        else (n : Int) % 65536 - 65536 from rfl]
  split <;> omega

theorem int16_neg_small (n : Nat) (h : n ≤ 32768) :
    int16 (-(n : Int)) = -(n : Int) := by
  unfold int16
  rw [show (let r := -(n : Int) % 65536;
      if r < 32768 then r else r - 65536)
      = if -(n : Int) % 65536 < 32768 then -(n : Int) % 65536
        else -(n : Int) % 65536 - 65536 from rfl]
  split <;> omega

theorem to_uint32_coe (n : Nat) (h : n < 4294967296) :
    to_uint32 (n : Int) = n := by
  unfold to_uint32
  omega

theorem add_wrap16_one (a : Nat) (h : a + 1 < 65536) :
    add_wrap16 a 1 = a + 1 := by
  unfold add_wrap16
  omega

theorem c_abs_diff16_eq (a b : Nat) (h1 : a ≤ b) (h2 : b - a ≤ 32768) :
    c_abs_diff16 a b = ((b - a : Nat) : Int) := by
  rcases Nat.eq_or_lt_of_le h1 with heq | hlt
  · subst heq
    unfold c_abs_diff16
    rw [show a + 65536 - a = 65536 from by omega]
    norm_num
    decide
  · have hab : a + 65536 - b = 65536 - (b - a) := by omega
    have hmod : (65536 - (b - a)) % 65536 = 65536 - (b - a) :=
      Nat.mod_eq_of_lt (by omega)
    unfold c_abs_diff16
    rw [hab, hmod]
    have h16 : int16 ((65536 - (b - a) : Nat) : Int) = -((b - a : Nat) : Int) := by
      unfold int16
      rw [show (let r := ((65536 - (b - a) : Nat) : Int) % 65536;
          if r < 32768 then r else r - 65536)
          = if ((65536 - (b - a) : Nat) : Int) % 65536 < 32768
            then ((65536 - (b - a) : Nat) : Int) % 65536
            else ((65536 - (b - a) : Nat) : Int) % 65536 - 65536 from rfl]
      split <;> omega
    rw [h16]
    simp

theorem write_line_loop_succ (fuel : Nat) (cursor endp : Vec)
    (ci ri cs rs er : Int) (colr : Nat) :
    write_line_loop (fuel + 1) cursor endp ci ri cs rs er colr
      = (let out := write_pixel cursor colr
         if cursor.column = endp.column ∧ cursor.row = endp.row then out
         else
           let e2 := int16 (2 * er)
           let stage1 : Option (Vec × Int) :=
             if e2 ≥ ri then
               if cursor.column = endp.column then none
               else some (⟨add_wrap16 cursor.column cs, cursor.row⟩,
                 int16 (er + ri))
             else some (cursor, er)
           match stage1 with
           | none => out
           | some (c1, er1) =>
             let stage2 : Option (Vec × Int) :=
               if e2 ≤ ci then
                 if c1.row = endp.row then none
                 else some (⟨c1.column, add_wrap16 c1.row rs⟩,
                   int16 (er1 + ci))
               else some (c1, er1)
             match stage2 with
             | none => out
             | some (c2, er2) =>
               out ++ write_line_loop fuel c2 endp ci ri cs rs er2 colr) :=
  rfl

theorem write_line_loop_vertical (colr c n : Nat) (hn : 1 ≤ n)
    (hn2 : n ≤ 480) (hc : c ≤ 320) :
    ∀ (j r0 : Nat), j ≤ n → r0 + j ≤ 480 →
      write_line_loop (j + 1) ⟨c, r0⟩ ⟨c, r0 + j⟩ 0 (-(n : Int)) (-1) 1
          (-(n : Int)) colr
        = pixel_run c r0 colr (j + 1) := by
  intro j
  induction j with
  | zero =>
    intro r0 _ hr
    have hcb : ¬(screen_columns < c ∨ screen_rows < r0) := by
      simp only [screen_columns, screen_rows]
      omega
    simp [write_line_loop, write_pixel, hcb, pixel_run]
  | succ j ih =>
    intro r0 hj hr
    rw [show r0 + (j + 1) = r0 + 1 + j from by omega]
    have hcb : ¬(screen_columns < c ∨ screen_rows < r0) := by
      simp only [screen_columns, screen_rows]
      omega
    rw [write_line_loop_succ]
    dsimp only
    rw [if_neg (by omega : ¬(c = c ∧ r0 = r0 + 1 + j))]
    rw [show int16 (2 * -(n : Int)) = -((2 * n : Nat) : Int) from by
      rw [show (2 * -(n : Int)) = -((2 * n : Nat) : Int) from by
        push_cast; ring]
      exact int16_neg_small (2 * n) (by omega)]
    rw [if_neg (by
      simp only [ge_iff_le, not_le]
      omega : ¬(-((2 * n : Nat) : Int) ≥ -(n : Int)))]
    dsimp only
    rw [if_pos (by omega : -((2 * n : Nat) : Int) ≤ 0)]
    rw [if_neg (by omega : ¬(r0 = r0 + 1 + j))]
    dsimp only
    rw [add_wrap16_one r0 (by omega)]
    rw [show -(n : Int) + 0 = -(n : Int) from by ring]
    rw [int16_neg_small n (by omega)]
    rw [ih (r0 + 1) (by omega) (by omega)]
    simp [write_pixel, hcb, pixel_run]

theorem pixel_run_window_count (c colr : Nat) :
    ∀ (k r0 : Nat), (pixel_run c r0 colr k).countP is_window = k := by
  intro k
  induction k with
  | zero => intro r0; simp [pixel_run]
  | succ k ih =>
    intro r0
    simp only [pixel_run, List.countP_cons, ih (r0 + 1)]
    rw [show is_window (GfxOut.window ⟨c, r0⟩ ⟨c, r0⟩) = true from rfl,
      show is_window (GfxOut.colour colr 1) = false from rfl]
    simp

/-- C10: the axis-aligned fast paths emit exactly `|end - start|` pixels
— the `write_colour` count is the coordinate difference, one fewer than
the `|end - start| + 1` pixels of the inclusive span — while the general
Bresenham `write_line` from `(c, r)` to `(c, r + n)` plots `n + 1`
single-pixel windows, covering every row of the span. -/
theorem axis_fast_paths_drop_one_endpoint :
    (∀ column r1 r2 c : Nat, max r1 r2 - min r1 r2 ≤ 32767 →
        vertical_line column r1 r2 c
          = [GfxOut.window ⟨column, min r1 r2⟩ ⟨column, max r1 r2⟩,
              GfxOut.colour c (max r1 r2 - min r1 r2)]) ∧
    (∀ row c1 c2 c : Nat, max c1 c2 - min c1 c2 ≤ 32767 →
        horizontal_line row c1 c2 c
          = [GfxOut.window ⟨min c1 c2, row⟩ ⟨max c1 c2, row⟩,
              GfxOut.colour c (max c1 c2 - min c1 c2)]) ∧
    (∀ c r n colr : Nat, c ≤ screen_columns → r + n ≤ screen_rows →
        write_line ⟨c, r⟩ ⟨c, r + n⟩ colr (n + 1)
            = pixel_run c r colr (n + 1) ∧
        (pixel_run c r colr (n + 1)).countP is_window = n + 1) := by
  refine ⟨?_, ?_, ?_⟩
  · intro column r1 r2 c h
    rcases le_or_lt r1 r2 with hle | hlt
    · rw [max_eq_right hle, min_eq_left hle] at h ⊢
      simp only [vertical_line]
      rw [if_pos (show r2 ≥ r1 from hle), if_pos (show r2 ≥ r1 from hle),
        if_pos (show r1 ≤ r2 from hle),
        Nat.mod_eq_of_lt (show r2 - r1 < 65536 from by omega),
        int16_coe_small (r2 - r1) (by omega),
        to_uint32_coe (r2 - r1) (by omega)]
    · have hle : r2 ≤ r1 := by omega
      rw [max_eq_left hle, min_eq_right hle] at h ⊢
      simp only [vertical_line]
      rw [if_neg (show ¬(r2 ≥ r1) from by omega),
        if_neg (show ¬(r2 ≥ r1) from by omega),
        if_neg (show ¬(r1 ≤ r2) from by omega),
        Nat.mod_eq_of_lt (show r1 - r2 < 65536 from by omega),
        int16_coe_small (r1 - r2) (by omega),
        to_uint32_coe (r1 - r2) (by omega)]
  · intro row c1 c2 c h
    rcases le_or_lt c1 c2 with hle | hlt
    · rw [max_eq_right hle, min_eq_left hle] at h ⊢
      simp only [horizontal_line]
      rw [if_pos (show c2 ≥ c1 from hle), if_pos (show c2 ≥ c1 from hle),
        if_pos (show c1 ≤ c2 from hle),
        Nat.mod_eq_of_lt (show c2 - c1 < 65536 from by omega),
        int16_coe_small (c2 - c1) (by omega),
        to_uint32_coe (c2 - c1) (by omega)]
    · have hle : c2 ≤ c1 := by omega
      rw [max_eq_left hle, min_eq_right hle] at h ⊢
      simp only [horizontal_line]
      rw [if_neg (show ¬(c2 ≥ c1) from by omega),
        if_neg (show ¬(c2 ≥ c1) from by omega),
        if_neg (show ¬(c1 ≤ c2) from by omega),
        Nat.mod_eq_of_lt (show c1 - c2 < 65536 from by omega),
        int16_coe_small (c1 - c2) (by omega),
        to_uint32_coe (c1 - c2) (by omega)]
  · intro c r n colr hc hr
    refine ⟨?_, pixel_run_window_count c colr (n + 1) r⟩
    have hsc : c ≤ 320 := by simpa [screen_columns] using hc
    have hsr : r + n ≤ 480 := by simpa [screen_rows] using hr
    unfold write_line
    dsimp only
    rw [c_abs_diff16_eq c c (Nat.le_refl c) (by omega),
      c_abs_diff16_eq r (r + n) (by omega) (by omega)]
    rw [show r + n - r = n from by omega, Nat.sub_self]
    rw [if_neg (lt_irrefl c)]
    rw [show ((0 : Nat) : Int) + -1 * ((n : Nat) : Int) = -(n : Int)
      from by push_cast; ring]
    rw [int16_neg_small n (by omega)]
    rw [show (-1 : Int) * ((n : Nat) : Int) = -(n : Int) from by ring]
    rw [show ((0 : Nat) : Int) = (0 : Int) from by norm_num]
    rcases Nat.eq_zero_or_pos n with hz | hp
    · subst hz
      have hcb : ¬(screen_columns < c ∨ screen_rows < r) := by
        simp only [screen_columns, screen_rows]
        omega
      simp [write_line_loop, write_pixel, hcb, pixel_run]
    · rw [if_pos (show r < r + n from by omega)]
      exact write_line_loop_vertical colr c n hp (by omega) hsc n r
        (Nat.le_refl n) (by omega)

/-- Witness for C10: a vertical fast-path line over the inclusive span
2..9 writes only 7 pixels, a horizontal one over 1..4 writes 3, while
`write_line` over rows 10..14 plots all 5 pixels of the span. -/
theorem axis_fast_paths_drop_one_endpoint_witness :
    vertical_line 5 2 9 1
      = [GfxOut.window ⟨5, 2⟩ ⟨5, 9⟩, GfxOut.colour 1 7] ∧
    horizontal_line 7 4 1 3
      = [GfxOut.window ⟨1, 7⟩ ⟨4, 7⟩, GfxOut.colour 3 3] ∧
    write_line ⟨3, 10⟩ ⟨3, 14⟩ 9 5 = pixel_run 3 10 9 5 ∧
    (pixel_run 3 10 9 5).countP is_window = 5 := by
  have h1 := axis_fast_paths_drop_one_endpoint.1 5 2 9 1 (by decide)
  have h2 := axis_fast_paths_drop_one_endpoint.2.1 7 4 1 3 (by decide)
  have h3 := axis_fast_paths_drop_one_endpoint.2.2 3 10 4 9
    (by decide) (by decide)
  exact ⟨by simpa using h1, by simpa using h2, by simpa using h3.1,
    by simpa using h3.2⟩

/-! ## Concrete evaluations of the embedded drivers -/

example : (uart_drain 5 (submit_strings [[104, 105], [33]] uart_init)).1
    = [104, 105, 33] := by decide

example : (uart_drain 4 (transmit_string [97, 37, 98] uart_init).2).1 = [97] := by
  decide

example :
    (uart_drain 7 (transmit_int (int16 48879) 16 uart_init).2).1
      = [48, 120, 66, 69, 69, 70] := by decide

example :
    (uart_drain 6 (transmit_int (-305) 10 uart_init).2).1
      = [45, 51, 48, 53] := by decide

example :
    (uart_drain 3 (transmit_int 0 10 uart_init).2).1 = [48] := by decide
